import Mathlib

/-!
# Verification of the blockchain voting service against its specification

Shallow embedding of the repository's core components:

* `MerkleTree` from `src/zkp-server.js` (`buildTree`, `getRoot`, `getProof`,
  and the manual verification fold from the `/zkp/generate-proof` route),
  parametric in the Poseidon 2-ary hash `h : Nat → Nat → Nat` (field
  elements are modelled as `Nat`).
* `ZKPHelper.generateNullifier` from `src/benchmark/zkp-helper.js`,
  parametric in keccak256 `k : Nat → Nat` over the packed byte string
  (modelled as the number `voterId * 2^256 + secret`).
* The `VotingSystem` Solidity contract from `src/contracts/VotingSystem.sol`:
  state, errors mirroring each `require`, and the operations
  `createElection`, `openElection`, `closeElection`,
  `registerAnonymousToken`, `castVote`, `verifyVoteInclusion`, together
  with a command step relation and reachability from the constructor state.
* `validateElectionData` from `src/server.js`.
-/

/-! ## Merkle tree (src/zkp-server.js, class MerkleTree) -/

/-- One pass of `buildTree`'s inner `for` loop: pair adjacent nodes;
`right = level[i+1] ?? level[i]`, i.e. an unpaired last node is hashed
with itself. -/
def pairUp (h : Nat → Nat → Nat) : List Nat → List Nat
  | [] => []
  | [x] => [h x x]
  | x :: y :: rest => h x y :: pairUp h rest

theorem pairUp_length (h : Nat → Nat → Nat) :
    ∀ l : List Nat, (pairUp h l).length = (l.length + 1) / 2
  | [] => rfl
  | [_] => by simp [pairUp]
  | _ :: _ :: rest => by
    simp only [pairUp, List.length_cons, pairUp_length h rest]
    omega

/-- Fuel-indexed rendering of `buildTree`'s `while (level.length > 1)`
loop: one fuel unit per iteration.  `pairUp` strictly shrinks a level of
length ≥ 2, so any fuel ≥ the level length makes the guard, not the
fuel, stop the loop (`buildLevelsAux_fuel_irrel`). -/
def buildLevelsAux (h : Nat → Nat → Nat) : Nat → List Nat → List (List Nat)
  | 0, level => [level]
  | fuel + 1, level =>
    if level.length ≤ 1 then [level]
    else level :: buildLevelsAux h fuel (pairUp h level)

/-- `buildTree`: the list of levels, leaves first, repeating `pairUp`
while the level has more than one node (the `while (level.length > 1)`
loop of `src/zkp-server.js`). -/
def buildLevels (h : Nat → Nat → Nat) (level : List Nat) : List (List Nat) :=
  buildLevelsAux h level.length level

theorem buildLevelsAux_fuel_irrel (h : Nat → Nat → Nat) :
    ∀ (f1 f2 : Nat) (level : List Nat), level.length ≤ f1 →
      level.length ≤ f2 → buildLevelsAux h f1 level = buildLevelsAux h f2 level := by
  intro f1
  induction f1 with
  | zero =>
    intro f2 level h1 h2
    have hlen : level.length = 0 := Nat.le_zero.mp h1
    cases f2 with
    | zero => rfl
    | succ m => simp [buildLevelsAux, hlen]
  | succ n ih =>
    intro f2 level h1 h2
    cases f2 with
    | zero =>
      have hlen : level.length = 0 := Nat.le_zero.mp h2
      simp [buildLevelsAux, hlen]
    | succ m =>
      by_cases hl : level.length ≤ 1
      · simp [buildLevelsAux, hl]
      · have hge : 2 ≤ level.length := by omega
        have hshrink : (pairUp h level).length ≤ level.length - 1 := by
          rw [pairUp_length]
          omega
        simp only [buildLevelsAux, hl, if_false]
        rw [ih m (pairUp h level) (by omega) (by omega)]

/-- Guard-side unfolding: a level of at most one node is the final level. -/
theorem buildLevels_base (h : Nat → Nat → Nat) (level : List Nat)
    (hl : level.length ≤ 1) : buildLevels h level = [level] := by
  unfold buildLevels
  cases hc : level.length with
  | zero => rfl
  | succ n =>
    have hn : n = 0 := by omega
    subst hn
    simp [buildLevelsAux, hl]

/-- Loop-step unfolding: a level of two or more nodes is followed by the
levels built over its `pairUp`. -/
theorem buildLevels_step (h : Nat → Nat → Nat) (level : List Nat)
    (hl : 2 ≤ level.length) :
    buildLevels h level = level :: buildLevels h (pairUp h level) := by
  unfold buildLevels
  cases hc : level.length with
  | zero => omega
  | succ n =>
    have hnl : ¬ (n + 1 ≤ 1) := by omega
    simp only [buildLevelsAux, hnl, if_false]
    have hshrink : (pairUp h level).length ≤ n := by
      rw [pairUp_length]
      omega
    rw [buildLevelsAux_fuel_irrel h n (pairUp h level).length
      (pairUp h level) hshrink (Nat.le_refl _)]
    rw [if_neg (by omega : ¬ level.length ≤ 1)]

/-- `getRoot`: the single node of the last level. -/
def rootOf (h : Nat → Nat → Nat) (leaves : List Nat) : Nat :=
  ((buildLevels h leaves).getLastD []).headD 0

/-- The sibling recorded by `getProof` at one level:
`layer[siblingIndex] ?? layer[index]` with
`siblingIndex = isRight ? index - 1 : index + 1`. -/
def siblingAt (layer : List Nat) (idx : Nat) : Nat :=
  (layer.get? (if idx % 2 = 1 then idx - 1 else idx + 1)).getD
    (layer.getD idx 0)

/-- The real (unpadded) part of `getProof`: the loop over
`level = 0 .. tree.length - 2`, index halving each level. -/
def getProofReal : List (List Nat) → Nat → List (Nat × Nat)
  | [], _ => []
  | layer :: rest, idx =>
    (siblingAt layer idx, idx % 2) :: getProofReal rest (idx / 2)

/-- `getProof`: real entries over all levels but the last, then `(0, 0)`
padding up to `TREE_DEPTH = 20` entries. -/
def getProof (h : Nat → Nat → Nat) (leaves : List Nat) (index : Nat) :
    List (Nat × Nat) :=
  let real := getProofReal ((buildLevels h leaves).dropLast) index
  real ++ List.replicate (20 - real.length) (0, 0)

/-- One step of the manual verification fold in the
`/zkp/generate-proof` route: a `0` element is skipped (padding carry),
otherwise the pair is hashed in the order dictated by the direction bit. -/
def foldStep (h : Nat → Nat → Nat) (cur : Nat) (p : Nat × Nat) : Nat :=
  if p.1 = 0 then cur
  else if p.2 = 1 then h p.1 cur else h cur p.1

/-- The full manual verification fold, from the leaf through the path. -/
def foldPath (h : Nat → Nat → Nat) (leaf : Nat) (path : List (Nat × Nat)) :
    Nat :=
  path.foldl (foldStep h) leaf

/-- Concrete stand-in hash used for counterexamples and witnesses:
total, never zero, and injective enough to separate the tested values. -/
def hcex (x y : Nat) : Nat := 2 ^ x * 3 ^ y + 5

/-! ### Supporting lemmas about the Merkle embedding -/

theorem getLastD_cons_ne_nil {α : Type} (a : α) (l : List α) (d : α)
    (hne : l ≠ []) : (a :: l).getLastD d = l.getLastD d := by
  cases l with
  | nil => exact absurd rfl hne
  | cons b bs => simp [List.getLastD_cons]

theorem getD_mem : ∀ (l : List Nat) (j : Nat), j < l.length →
    ∀ d : Nat, l.getD j d ∈ l
  | [], j, hj, _ => by simp at hj
  | x :: xs, 0, _, d => by simp
  | x :: xs, j + 1, hj, d => by
    simp only [List.getD_cons_succ]
    exact List.mem_cons_of_mem _ (getD_mem xs j (by simpa using hj) d)

theorem pairUp_ne_zero (h : Nat → Nat → Nat) (hh : ∀ x y, h x y ≠ 0) :
    ∀ l : List Nat, ∀ x ∈ pairUp h l, x ≠ 0
  | [] => by simp [pairUp]
  | [a] => by
    simp only [pairUp, List.mem_singleton]
    intro x hx
    subst hx
    exact hh a a
  | a :: b :: rest => by
    intro x hx
    simp only [pairUp, List.mem_cons] at hx
    rcases hx with rfl | hx
    · exact hh a b
    · exact pairUp_ne_zero h hh rest x hx

theorem buildLevels_ne_nil (h : Nat → Nat → Nat) (level : List Nat) :
    buildLevels h level ≠ [] := by
  by_cases hl : level.length ≤ 1
  · rw [buildLevels_base h level hl]
    simp
  · rw [buildLevels_step h level (by omega)]
    simp

theorem rootOf_step (h : Nat → Nat → Nat) (level : List Nat)
    (hl : 2 ≤ level.length) : rootOf h level = rootOf h (pairUp h level) := by
  unfold rootOf
  rw [buildLevels_step h level hl,
    getLastD_cons_ne_nil _ _ _ (buildLevels_ne_nil h (pairUp h level))]

/-- The value `pairUp` places at position `i / 2`: hash of the adjacent
pair, or of the unpaired last node with itself. -/
theorem pairUp_getD (h : Nat → Nat → Nat) :
    ∀ (l : List Nat) (i : Nat), i < l.length →
    (pairUp h l).getD (i / 2) 0 =
      if i % 2 = 1 then h (l.getD (i - 1) 0) (l.getD i 0)
      else if i + 1 < l.length then h (l.getD i 0) (l.getD (i + 1) 0)
      else h (l.getD i 0) (l.getD i 0)
  | [], i, hi => by simp at hi
  | [a], i, hi => by
    have hi0 : i = 0 := by simpa using hi
    subst hi0
    simp [pairUp]
  | a :: b :: rest, 0, hi => by
    have hlt : (0 : Nat) + 1 < (a :: b :: rest).length := by
      simp
    simp [pairUp, hlt]
  | a :: b :: rest, 1, hi => by
    simp [pairUp]
  | a :: b :: rest, n + 2, hi => by
    have hn : n < rest.length := by
      simp only [List.length_cons] at hi
      omega
    have hdiv : (n + 2) / 2 = n / 2 + 1 := by omega
    have hmod : (n + 2) % 2 = n % 2 := by omega
    rw [hdiv, hmod]
    simp only [pairUp, List.getD_cons_succ]
    rw [pairUp_getD h rest n hn]
    by_cases hodd : n % 2 = 1
    · rw [if_pos hodd, if_pos hodd]
      have hn1 : 1 ≤ n := by omega
      have hsub : n + 2 - 1 = (n - 1) + 2 := by omega
      rw [hsub]
      simp only [List.getD_cons_succ]
    · rw [if_neg hodd, if_neg hodd]
      have hiff : n + 2 + 1 < (a :: b :: rest).length ↔ n + 1 < rest.length := by
        simp only [List.length_cons]
        omega
      by_cases hin : n + 1 < rest.length
      · rw [if_pos hin, if_pos (hiff.mpr hin)]
      · rw [if_neg hin, if_neg (fun hc => hin (hiff.mp hc))]

/-- One level of the manual verification fold consumes the recorded
sibling and lands exactly on the parent produced by `pairUp`, provided
no node of the level is the `0` sentinel. -/
theorem foldStep_sibling (h : Nat → Nat → Nat) (l : List Nat) (i : Nat)
    (hi : i < l.length) (hnz : ∀ x ∈ l, x ≠ 0) :
    foldStep h (l.getD i 0) (siblingAt l i, i % 2) =
      (pairUp h l).getD (i / 2) 0 := by
  rw [pairUp_getD h l i hi]
  by_cases hodd : i % 2 = 1
  · have hi1 : i - 1 < l.length := by omega
    have hsib : siblingAt l i = l.getD (i - 1) 0 := by
      unfold siblingAt
      rw [if_pos hodd]
      simp [List.getElem?_eq_getElem hi1, List.getD_eq_getElem?_getD]
    have hne : l.getD (i - 1) 0 ≠ 0 := hnz _ (getD_mem l (i - 1) hi1 0)
    rw [hsib]
    simp only [foldStep]
    rw [if_neg hne, if_pos hodd, if_pos hodd]
  · by_cases hin : i + 1 < l.length
    · have hsib : siblingAt l i = l.getD (i + 1) 0 := by
        unfold siblingAt
        rw [if_neg hodd]
        simp [List.getElem?_eq_getElem hin, List.getD_eq_getElem?_getD]
      have hne : l.getD (i + 1) 0 ≠ 0 := hnz _ (getD_mem l (i + 1) hin 0)
      rw [hsib]
      simp only [foldStep]
      rw [if_neg hne, if_neg hodd, if_neg hodd, if_pos hin]
    · have hsib : siblingAt l i = l.getD i 0 := by
        unfold siblingAt
        rw [if_neg hodd]
        rw [List.get?_eq_getElem?, List.getElem?_eq_none (by omega)]
        rfl
      have hne : l.getD i 0 ≠ 0 := hnz _ (getD_mem l i hi 0)
      rw [hsib]
      simp only [foldStep]
      rw [if_neg hne, if_neg hodd, if_neg hodd, if_neg hin]

theorem getProofReal_length : ∀ (levels : List (List Nat)) (i : Nat),
    (getProofReal levels i).length = levels.length
  | [], _ => rfl
  | _ :: rest, i => by
    simp [getProofReal, getProofReal_length rest (i / 2)]

theorem foldPath_replicate_zero (h : Nat → Nat → Nat) (c : Nat) :
    ∀ n : Nat, foldPath h c (List.replicate n (0, 0)) = c := by
  intro n
  induction n with
  | zero => rfl
  | succ m ih =>
    simp only [List.replicate_succ, foldPath, List.foldl_cons]
    have hstep : foldStep h c (0, 0) = c := rfl
    rw [hstep]
    exact ih

theorem foldPath_append_replicate (h : Nat → Nat → Nat) (c : Nat)
    (xs : List (Nat × Nat)) (n : Nat) :
    foldPath h c (xs ++ List.replicate n (0, 0)) = foldPath h c xs := by
  unfold foldPath
  rw [List.foldl_append]
  exact foldPath_replicate_zero h _ n

/-- Folding the real (unpadded) proof entries from leaf `i` reproduces
the root, for any level whose nodes are all non-zero and any hash that
never produces `0`. -/
theorem foldReal_eq_root (h : Nat → Nat → Nat) (hh : ∀ x y, h x y ≠ 0)
    (level : List Nat) (hnz : ∀ x ∈ level, x ≠ 0) (i : Nat)
    (hi : i < level.length) :
    foldPath h (level.getD i 0)
      (getProofReal ((buildLevels h level).dropLast) i) = rootOf h level := by
  by_cases hl : level.length ≤ 1
  · rw [buildLevels_base h level hl]
    have hlen : level.length = 1 := by omega
    have hi0 : i = 0 := by omega
    subst hi0
    cases level with
    | nil => simp at hlen
    | cons x xs =>
      have hxs : xs = [] := by
        cases xs with
        | nil => rfl
        | cons y ys => simp at hlen
      subst hxs
      simp [getProofReal, foldPath, rootOf, buildLevels_base h [x] (by simp)]
  · have hl2 : 2 ≤ level.length := by omega
    rw [buildLevels_step h level hl2]
    obtain ⟨t, ts, hts⟩ : ∃ t ts, buildLevels h (pairUp h level) = t :: ts := by
      cases hbt : buildLevels h (pairUp h level) with
      | nil => exact absurd hbt (buildLevels_ne_nil h (pairUp h level))
      | cons t ts => exact ⟨t, ts, rfl⟩
    rw [hts, List.dropLast_cons₂, ← hts]
    show foldPath h (level.getD i 0)
      ((siblingAt level i, i % 2) ::
        getProofReal ((buildLevels h (pairUp h level)).dropLast) (i / 2)) = _
    have hstep1 : foldPath h (level.getD i 0)
        ((siblingAt level i, i % 2) ::
          getProofReal ((buildLevels h (pairUp h level)).dropLast) (i / 2)) =
        foldPath h (foldStep h (level.getD i 0) (siblingAt level i, i % 2))
          (getProofReal ((buildLevels h (pairUp h level)).dropLast) (i / 2)) := rfl
    rw [hstep1, foldStep_sibling h level i hi hnz, rootOf_step h level hl2]
    have hi2 : i / 2 < (pairUp h level).length := by
      rw [pairUp_length]
      omega
    exact foldReal_eq_root h hh (pairUp h level) (pairUp_ne_zero h hh level) (i / 2) hi2
termination_by level.length
decreasing_by
  rw [pairUp_length]
  omega

theorem hcex_ne_zero : ∀ x y, hcex x y ≠ 0 := by
  intro x y
  unfold hcex
  omega

theorem pairUp_ne_nil (h : Nat → Nat → Nat) :
    ∀ l : List Nat, l ≠ [] → pairUp h l ≠ []
  | [], hne => absurd rfl hne
  | [a], _ => by simp [pairUp]
  | a :: b :: rest, _ => by simp [pairUp]

/-- On a level of odd length, `pairUp` maps the unpaired last node `x`
to `h x x` (the `level[i + 1] ?? level[i]` fallback). -/
theorem pairUp_odd_last (h : Nat → Nat → Nat) :
    ∀ l : List Nat, l.length % 2 = 1 →
      (pairUp h l).getLastD 0 = h (l.getLastD 0) (l.getLastD 0)
  | [], hodd => by simp at hodd
  | [a], _ => by simp [pairUp, List.getLastD_cons]
  | a :: b :: rest, hodd => by
    have hro : rest.length % 2 = 1 := by
      simp only [List.length_cons] at hodd
      omega
    have hrne : rest ≠ [] := by
      cases rest with
      | nil => simp at hro
      | cons x xs => simp
    have hpne : pairUp h rest ≠ [] := pairUp_ne_nil h rest hrne
    show (h a b :: pairUp h rest).getLastD 0 = _
    rw [getLastD_cons_ne_nil _ _ _ hpne,
      getLastD_cons_ne_nil a (b :: rest) 0 (by simp),
      getLastD_cons_ne_nil b rest 0 hrne]
    exact pairUp_odd_last h rest hro

/-- C1 counterexample: over leaves `[1, 2, 3]` and the concrete hash
`hcex`, level 1 of `buildTree` is `[hcex 1 2, hcex 3 3]`, not the
claimed `[hash(a, b), c] = [hcex 1 2, 3]`: the unpaired node is hashed
with itself instead of being carried forward unchanged. -/
theorem merkle_odd_node_not_carried_cex :
    (buildLevels hcex [1, 2, 3]).getD 1 [] ≠ [hcex 1 2, 3] := by decide

/-- C1 (amended): for every level of the Merkle tree with an odd number
of nodes, the unpaired last node `x` yields the parent `hash(x, x)`
(`right = level[i + 1] ?? level[i]`), not a carried copy of `x`; in
particular, building over leaves `[a, b, c]` yields level 1 equal to
`[hash(a, b), hash(c, c)]`. -/
theorem merkle_odd_node_self_hashed (h : Nat → Nat → Nat) (l : List Nat)
    (hodd : l.length % 2 = 1) (a b c : Nat) :
    (pairUp h l).getLastD 0 = h (l.getLastD 0) (l.getLastD 0)
    ∧ (buildLevels h [a, b, c]).getD 1 [] = [h a b, h c c] := by
  constructor
  · exact pairUp_odd_last h l hodd
  · rw [buildLevels_step h [a, b, c] (by simp)]
    show (buildLevels h [h a b, h c c]).getD 0 [] = [h a b, h c c]
    rw [buildLevels_step h [h a b, h c c] (by simp)]
    rfl

/-- C1 witness: the amended statement instantiated at `hcex`, the
odd-length level `[7]` and leaves `[1, 2, 3]`. -/
theorem merkle_odd_node_self_hashed_witness :
    ([7] : List Nat).length % 2 = 1
      ∧ ((pairUp hcex [7]).getLastD 0 =
          hcex (([7] : List Nat).getLastD 0) (([7] : List Nat).getLastD 0)
        ∧ (buildLevels hcex [1, 2, 3]).getD 1 [] = [hcex 1 2, hcex 3 3]) :=
  ⟨by decide, merkle_odd_node_self_hashed hcex [7] (by decide) 1 2 3⟩

/-- C6 counterexample: for the leaf list `[1, 0]` (a real sibling equal
to the additive identity 0) and the concrete hash `hcex`, folding the
inclusion path of leaf 0 skips the genuine sibling `0` and yields the
leaf `1`, while the root is `hcex 1 0 = 7`: the round trip fails, so the
claim does not hold for every non-empty leaf list. -/
theorem merkle_roundtrip_cex :
    foldPath hcex (([1, 0] : List Nat).getD 0 0) (getProof hcex [1, 0] 0)
      ≠ rootOf hcex [1, 0] := by decide

/-- C6 (amended): for every non-empty leaf list whose leaves are all
non-zero, every hash that never returns 0 and every index in range,
folding the inclusion path returned by `getProof` starting from the
leaf (hashing with each non-zero path element in the recorded
left/right order, skipping zero elements) reproduces the root of the
tree built over the leaves. -/
theorem merkle_roundtrip (h : Nat → Nat → Nat) (hh : ∀ x y, h x y ≠ 0)
    (leaves : List Nat) (hnz : ∀ x ∈ leaves, x ≠ 0) (i : Nat)
    (hi : i < leaves.length) :
    foldPath h (leaves.getD i 0) (getProof h leaves i) = rootOf h leaves := by
  show foldPath h (leaves.getD i 0)
    (getProofReal ((buildLevels h leaves).dropLast) i ++
      List.replicate
        (20 - (getProofReal ((buildLevels h leaves).dropLast) i).length)
        (0, 0)) = rootOf h leaves
  rw [foldPath_append_replicate]
  exact foldReal_eq_root h hh leaves hnz i hi

/-- C6 witness: the round trip at `hcex`, leaves `[1, 2, 3]`, index 2. -/
theorem merkle_roundtrip_witness :
    (∀ x ∈ ([1, 2, 3] : List Nat), x ≠ 0) ∧ 2 < ([1, 2, 3] : List Nat).length
      ∧ foldPath hcex (([1, 2, 3] : List Nat).getD 2 0)
          (getProof hcex [1, 2, 3] 2) = rootOf hcex [1, 2, 3] :=
  ⟨by decide, by decide,
    merkle_roundtrip hcex hcex_ne_zero [1, 2, 3] (by decide) 2 (by decide)⟩

theorem buildLevels_length_le (h : Nat → Nat → Nat) :
    ∀ (k : Nat) (l : List Nat), l.length ≤ 2 ^ k →
      (buildLevels h l).length ≤ k + 1 := by
  intro k
  induction k with
  | zero =>
    intro l hl
    have hl1 : l.length ≤ 1 := by simpa using hl
    rw [buildLevels_base h l hl1]
    simp
  | succ n ih =>
    intro l hl
    by_cases hl1 : l.length ≤ 1
    · rw [buildLevels_base h l hl1]
      simp
    · rw [buildLevels_step h l (by omega)]
      have hcap : (pairUp h l).length ≤ 2 ^ n := by
        rw [pairUp_length]
        have hp : (2 : Nat) ^ (n + 1) = 2 * 2 ^ n := by ring
        omega
      have := ih (pairUp h l) hcap
      simp only [List.length_cons]
      omega

theorem replicate_getD {α : Type} (a d : α) :
    ∀ (n m : Nat), m < n → (List.replicate n a).getD m d = a
  | 0, m, hm => by simp at hm
  | n + 1, 0, _ => by simp [List.replicate_succ]
  | n + 1, m + 1, hm => by
    simp only [List.replicate_succ, List.getD_cons_succ]
    exact replicate_getD a d n m (by omega)

theorem dropLast_getD {α : Type} (d : α) :
    ∀ (t : List α) (j : Nat), j < t.length - 1 →
      t.dropLast.getD j d = t.getD j d
  | [], j, hj => by simp at hj
  | [x], j, hj => by simp at hj
  | x :: y :: ys, 0, _ => by simp
  | x :: y :: ys, j + 1, hj => by
    simp only [List.dropLast_cons₂, List.getD_cons_succ]
    exact dropLast_getD d (y :: ys) j (by simp at hj ⊢; omega)

/-- Entry `j` of the real proof prefix: the sibling (or, failing one,
the node itself) at layer `j`, paired with the direction bit, where the
index at layer `j` is `i / 2 ^ j`. -/
theorem getProofReal_getD :
    ∀ (levels : List (List Nat)) (i j : Nat) (d : Nat × Nat),
      j < levels.length → (getProofReal levels i).getD j d =
        (siblingAt (levels.getD j []) (i / 2 ^ j), (i / 2 ^ j) % 2)
  | [], _, j, _, hj => by simp at hj
  | layer :: rest, i, 0, d, _ => by
    simp [getProofReal]
  | layer :: rest, i, j + 1, d, hj => by
    simp only [getProofReal, List.getD_cons_succ]
    rw [getProofReal_getD rest (i / 2) j d (by simpa using hj)]
    have hdiv : i / 2 / 2 ^ j = i / 2 ^ (j + 1) := by
      rw [Nat.div_div_eq_div_mul]
      congr 1
      ring
    rw [hdiv]

/-- C7 counterexample: over leaves `[1, 2, 3]` (hash `hcex`), the
level-0 entry of `path(2)` is `(3, 0)`: the node with no sibling records
itself (`layer[siblingIndex] ?? layer[index]`), not the claimed additive
identity 0. -/
theorem getProof_sentinel_cex :
    (getProof hcex [1, 2, 3] 2).getD 0 (0, 0) = (3, 0)
      ∧ (3 : Nat) ≠ 0 := by decide

/-- C7 (amended): for every tree over at most `2 ^ 20` leaves and every
valid leaf index, `getProof` returns exactly 20 (element, bit) pairs;
every entry beyond the real tree height is the `(0, 0)` sentinel pair;
and at each real level `j` the recorded element is the sibling
`layer[siblingIndex]` when present and the current node itself (not 0)
when no sibling exists, with the direction bit `(i / 2 ^ j) % 2`. -/
theorem getProof_shape (h : Nat → Nat → Nat) (leaves : List Nat) (i : Nat)
    (hi : i < leaves.length) (hcap : leaves.length ≤ 2 ^ 20) :
    (getProof h leaves i).length = 20
    ∧ (∀ j, (buildLevels h leaves).length - 1 ≤ j → j < 20 →
        (getProof h leaves i).getD j (1, 1) = (0, 0))
    ∧ (∀ j, j < (buildLevels h leaves).length - 1 →
        (getProof h leaves i).getD j (0, 0) =
          (siblingAt ((buildLevels h leaves).getD j []) (i / 2 ^ j),
            (i / 2 ^ j) % 2)) := by
  have hht : (buildLevels h leaves).length ≤ 21 :=
    buildLevels_length_le h 20 leaves hcap
  have hreal : (getProofReal ((buildLevels h leaves).dropLast) i).length =
      (buildLevels h leaves).length - 1 := by
    rw [getProofReal_length, List.length_dropLast]
  have hgp : getProof h leaves i =
      getProofReal ((buildLevels h leaves).dropLast) i ++
        List.replicate
          (20 - (getProofReal ((buildLevels h leaves).dropLast) i).length)
          (0, 0) := rfl
  refine ⟨?_, ?_, ?_⟩
  · rw [hgp, List.length_append, List.length_replicate, hreal]
    omega
  · intro j hj1 hj2
    rw [hgp, List.getD_append_right _ _ _ _ (by omega)]
    exact replicate_getD _ _ _ _ (by omega)
  · intro j hj
    rw [hgp, List.getD_append _ _ _ _ (by omega),
      getProofReal_getD _ i j _ (by rw [List.length_dropLast]; omega),
      dropLast_getD [] (buildLevels h leaves) j hj]

/-- C7 witness: the amended statement at `hcex`, leaves `[1, 2, 3]`,
index 2: the path has 20 entries, `(0, 0)` sentinels above the real
height 2, and real entries describing the recorded siblings. -/
theorem getProof_shape_witness :
    2 < ([1, 2, 3] : List Nat).length
    ∧ ([1, 2, 3] : List Nat).length ≤ 2 ^ 20
    ∧ ((getProof hcex [1, 2, 3] 2).length = 20
      ∧ (∀ j, (buildLevels hcex [1, 2, 3]).length - 1 ≤ j → j < 20 →
          (getProof hcex [1, 2, 3] 2).getD j (1, 1) = (0, 0))
      ∧ (∀ j, j < (buildLevels hcex [1, 2, 3]).length - 1 →
          (getProof hcex [1, 2, 3] 2).getD j (0, 0) =
            (siblingAt ((buildLevels hcex [1, 2, 3]).getD j []) (2 / 2 ^ j),
              (2 / 2 ^ j) % 2))) :=
  ⟨by decide, by decide,
    getProof_shape hcex [1, 2, 3] 2 (by decide) (by decide)⟩

/-! ## Nullifier (src/benchmark/zkp-helper.js, class ZKPHelper) -/

/-- `generateNullifier(voterId, secretCode)`: keccak256 of
`solidityPacked(["bytes32","bytes32"], [voterId, secretCode])`,
modelled with an abstract keccak `k : Nat → Nat` applied to the packed
64-byte string encoded as the number `voterId * 2 ^ 256 + secretCode`. -/
def generateNullifier (k : Nat → Nat) (voterId secretCode : Nat) : Nat :=
  k (voterId * 2 ^ 256 + secretCode)

/-- The nullifier attached to a proof by
`generateVoteProofWithMerklePath(voterIndex, candidateId, merkleRoot,
merklePath, electionId)` (and likewise by `generateRealProof` and
`generateMockProof`): it is `this.generateNullifier(voterId, secretCode)`;
the `electionId` parameter is in scope but takes no part in the
derivation. -/
def voteProofNullifier (k : Nat → Nat) (voterId secretCode electionId : Nat) :
    Nat :=
  generateNullifier k voterId secretCode

/-- C4 counterexample: for the same voter material and the election ids
10 and 11, the nullifiers coincide (for the identity stand-in keccak,
and in fact for every keccak, since `electionId` never enters the hash):
changing only `electionId` does not change the nullifier. -/
theorem nullifier_ignores_election_cex :
    voteProofNullifier (fun n => n) 1 2 10 =
        voteProofNullifier (fun n => n) 1 2 11
      ∧ (10 : Nat) ≠ 11 :=
  ⟨rfl, by decide⟩

/-- C4 (amended): the nullifier is a deterministic function of
`(voterId, secretCode)` alone: repeated derivations with the same two
inputs agree, changing only `electionId` yields the SAME nullifier (the
election id is not part of the derivation), and for an injective keccak
and in-range secrets the nullifier determines the pair. -/
theorem nullifier_deterministic (k : Nat → Nat)
    (hk : Function.Injective k) (v1 s1 v2 s2 : Nat)
    (hs1 : s1 < 2 ^ 256) (hs2 : s2 < 2 ^ 256) :
    (∀ e1 e2 : Nat,
        voteProofNullifier k v1 s1 e1 = voteProofNullifier k v1 s1 e2)
    ∧ (generateNullifier k v1 s1 = generateNullifier k v2 s2 →
        v1 = v2 ∧ s1 = s2) := by
  constructor
  · intro e1 e2
    rfl
  · intro heq
    have hpack : v1 * 2 ^ 256 + s1 = v2 * 2 ^ 256 + s2 := hk heq
    constructor <;> omega

/-- C4 witness: the amended statement at the identity keccak and
concrete voter material. -/
theorem nullifier_deterministic_witness :
    Function.Injective (fun n : Nat => n) ∧ (5 : Nat) < 2 ^ 256
    ∧ ((∀ e1 e2 : Nat, voteProofNullifier (fun n => n) 1 5 e1 =
          voteProofNullifier (fun n => n) 1 5 e2)
      ∧ (generateNullifier (fun n => n) 1 5 = generateNullifier (fun n => n) 1 5 →
          (1 : Nat) = 1 ∧ (5 : Nat) = 5)) :=
  ⟨fun a b hab => hab, by decide,
    nullifier_deterministic (fun n => n) (fun a b hab => hab) 1 5 1 5
      (by decide) (by decide)⟩

/-! ## VotingSystem contract (src/contracts/VotingSystem.sol)

Mappings are modelled as total functions with Solidity default values;
`bytes32` values, addresses and `uint256` as `Nat`; `block.timestamp`,
`block.number` and `msg.sender` come from an `Env` record per call; a
reverting `require` is an `Except.error` naming the failed check, which
leaves the caller's state unchanged.  `keccak256(abi.encodePacked(...))`
in `castVote` is an abstract parameter `hv` of the five packed fields. -/

structure Election where
  id : Nat
  title : String
  startTime : Nat
  endTime : Nat
  isActive : Bool
  isClosed : Bool
  totalVotes : Nat
  candidatesMerkleRoot : Nat
deriving Repr, DecidableEq

/-- Solidity default `Election` struct (all fields zero). -/
def defaultElection : Election :=
  { id := 0, title := "", startTime := 0, endTime := 0, isActive := false,
    isClosed := false, totalVotes := 0, candidatesMerkleRoot := 0 }

structure EncryptedVote where
  voteHash : Nat
  encryptedBallot : List Nat
  anonymousTokenHash : Nat
  timestamp : Nat
  blockNumber : Nat
deriving Repr, DecidableEq

/-- Solidity default `EncryptedVote` struct (all fields zero). -/
def defaultVote : EncryptedVote :=
  { voteHash := 0, encryptedBallot := [], anonymousTokenHash := 0,
    timestamp := 0, blockNumber := 0 }

structure VSState where
  elections : Nat → Election
  votes : Nat → Nat → EncryptedVote
  usedTokens : Nat → Nat → Bool
  electionVoteHashes : Nat → List Nat
  electionAuthority : Nat
  electionCount : Nat

structure Env where
  sender : Nat
  timestamp : Nat
  blockNumber : Nat

/-- One constructor per `require` string in the contract. -/
inductive VErr where
  | unauthorized
  | electionMissing
  | notActive
  | notStarted
  | ended
  | closedForVoting
  | startNotFuture
  | endNotAfterStart
  | alreadyActive
  | alreadyClosed
  | tokenAlreadyRegistered
  | tokenAlreadyUsed
  | voteHashCollision
deriving Repr, DecidableEq

/-- The constructor: `electionAuthority = msg.sender; electionCount = 0`,
all mappings at their Solidity defaults. -/
def initState (deployer : Nat) : VSState :=
  { elections := fun _ => defaultElection
    votes := fun _ _ => defaultVote
    usedTokens := fun _ _ => false
    electionVoteHashes := fun _ => []
    electionAuthority := deployer
    electionCount := 0 }

def createElection (s : VSState) (env : Env) (title : String)
    (startTime endTime candidatesMerkleRoot : Nat) :
    Except VErr (Nat × VSState) :=
  if env.sender ≠ s.electionAuthority then .error .unauthorized
  else if ¬ startTime ≥ env.timestamp then .error .startNotFuture
  else if ¬ endTime > startTime then .error .endNotAfterStart
  else
    let electionId := s.electionCount + 1
    .ok (electionId,
      { s with
        electionCount := electionId
        elections := fun n =>
          if n = electionId then
            { id := electionId, title := title, startTime := startTime,
              endTime := endTime, isActive := false, isClosed := false,
              totalVotes := 0, candidatesMerkleRoot := candidatesMerkleRoot }
          else s.elections n })

def openElection (s : VSState) (env : Env) (electionId : Nat) :
    Except VErr VSState :=
  if env.sender ≠ s.electionAuthority then .error .unauthorized
  else if (s.elections electionId).id ≠ electionId then .error .electionMissing
  else if (s.elections electionId).isActive then .error .alreadyActive
  else if (s.elections electionId).isClosed then .error .alreadyClosed
  else .ok { s with
    elections := fun n =>
      if n = electionId then { s.elections electionId with isActive := true }
      else s.elections n }

def closeElection (s : VSState) (env : Env) (electionId : Nat) :
    Except VErr VSState :=
  if env.sender ≠ s.electionAuthority then .error .unauthorized
  else if (s.elections electionId).id ≠ electionId then .error .electionMissing
  else if ¬ (s.elections electionId).isActive then .error .notActive
  else if (s.elections electionId).isClosed then .error .alreadyClosed
  else .ok { s with
    elections := fun n =>
      if n = electionId then
        { s.elections electionId with isActive := false, isClosed := true }
      else s.elections n }

def registerAnonymousToken (s : VSState) (env : Env)
    (electionId tokenHash : Nat) : Except VErr VSState :=
  if env.sender ≠ s.electionAuthority then .error .unauthorized
  else if (s.elections electionId).id ≠ electionId then .error .electionMissing
  else if s.usedTokens electionId tokenHash then .error .tokenAlreadyRegistered
  else .ok { s with
    usedTokens := fun e t =>
      if e = electionId ∧ t = tokenHash then false else s.usedTokens e t }

def castVote (hv : Nat → Nat → List Nat → Nat → Nat → Nat) (s : VSState)
    (env : Env) (electionId anonymousTokenHash : Nat)
    (encryptedBallot : List Nat) : Except VErr (Nat × VSState) :=
  if ¬ (s.elections electionId).isActive then .error .notActive
  else if ¬ env.timestamp ≥ (s.elections electionId).startTime then
    .error .notStarted
  else if ¬ env.timestamp ≤ (s.elections electionId).endTime then .error .ended
  else if (s.elections electionId).isClosed then .error .closedForVoting
  else if s.usedTokens electionId anonymousTokenHash then
    .error .tokenAlreadyUsed
  else if (s.votes electionId
      (hv electionId anonymousTokenHash encryptedBallot env.timestamp
        env.blockNumber)).voteHash ≠ 0 then
    .error .voteHashCollision
  else .ok (hv electionId anonymousTokenHash encryptedBallot env.timestamp
      env.blockNumber,
      { s with
        usedTokens := fun e t =>
          if e = electionId ∧ t = anonymousTokenHash then true
          else s.usedTokens e t
        votes := fun e vh =>
          if e = electionId
              ∧ vh = hv electionId anonymousTokenHash encryptedBallot
                  env.timestamp env.blockNumber then
            { voteHash :=
                hv electionId anonymousTokenHash encryptedBallot env.timestamp
                  env.blockNumber,
              encryptedBallot := encryptedBallot,
              anonymousTokenHash := anonymousTokenHash,
              timestamp := env.timestamp, blockNumber := env.blockNumber }
          else s.votes e vh
        electionVoteHashes := fun e =>
          if e = electionId then
            s.electionVoteHashes e ++
              [hv electionId anonymousTokenHash encryptedBallot env.timestamp
                env.blockNumber]
          else s.electionVoteHashes e
        elections := fun n =>
          if n = electionId then
            { s.elections electionId with
              totalVotes := (s.elections electionId).totalVotes + 1 }
          else s.elections n })

/-- `verifyVoteInclusion`: pure read returning
`(exists, timestamp, blockNumber)`. -/
def verifyVoteInclusion (s : VSState) (electionId voteHash : Nat) :
    Bool × Nat × Nat :=
  ((s.votes electionId voteHash).voteHash != 0,
    (s.votes electionId voteHash).timestamp,
    (s.votes electionId voteHash).blockNumber)

def getElectionVoteHashes (s : VSState) (electionId : Nat) : List Nat :=
  s.electionVoteHashes electionId

/-- External transactions against the contract. -/
inductive Cmd where
  | create (title : String) (startTime endTime candidatesMerkleRoot : Nat)
  | openEl (electionId : Nat)
  | closeEl (electionId : Nat)
  | register (electionId tokenHash : Nat)
  | cast (electionId tokenHash : Nat) (encryptedBallot : List Nat)

/-- Transaction semantics: a revert (`Except.error`) leaves the state
unchanged, a success commits the returned state. -/
def applyCmd (hv : Nat → Nat → List Nat → Nat → Nat → Nat) (s : VSState)
    (env : Env) : Cmd → VSState
  | .create t st en cr =>
    match createElection s env t st en cr with
    | .ok p => p.2
    | .error _ => s
  | .openEl e =>
    match openElection s env e with
    | .ok s2 => s2
    | .error _ => s
  | .closeEl e =>
    match closeElection s env e with
    | .ok s2 => s2
    | .error _ => s
  | .register e t =>
    match registerAnonymousToken s env e t with
    | .ok s2 => s2
    | .error _ => s
  | .cast e t b =>
    match castVote hv s env e t b with
    | .ok p => p.2
    | .error _ => s

/-- States reachable from contract deployment by any sequence of
transactions in any environments. -/
inductive Reachable (hv : Nat → Nat → List Nat → Nat → Nat → Nat) :
    VSState → Prop where
  | deployed (deployer : Nat) : Reachable hv (initState deployer)
  | step (s : VSState) (env : Env) (c : Cmd) :
      Reachable hv s → Reachable hv (applyCmd hv s env c)

/-- `validateElectionData` messages from `src/server.js` (one tag per
`errors.push`). -/
inductive ValidationMsg where
  | titleTooShort
  | titleTooLong
  | startNotFuture
  | endNotAfterStart
deriving Repr, DecidableEq

/-- `validateElectionData(title, startTime, endTime)` from
`src/server.js`, with `now = Math.floor(Date.now() / 1000)` passed
explicitly.  JS falsiness of a number is equality with 0; the inputs are
numbers, so the `isNaN` branches cannot fire. -/
def validateElectionData (title : String) (startTime endTime now : Nat) :
    List ValidationMsg :=
  (if title.trim.length < 3 then [ValidationMsg.titleTooShort] else [])
    ++ (if 255 < title.length then [ValidationMsg.titleTooLong] else [])
    ++ (if startTime = 0 ∨ startTime ≤ now then [ValidationMsg.startNotFuture]
        else [])
    ++ (if endTime = 0 ∨ endTime ≤ startTime then
          [ValidationMsg.endNotAfterStart]
        else [])

/-- Success test for a transaction result. -/
def exceptOk {α : Type} : Except VErr α → Bool
  | .ok _ => true
  | .error _ => false

/-- Concrete stand-in vote hash for counterexamples and witnesses. -/
def hvcex : Nat → Nat → List Nat → Nat → Nat → Nat :=
  fun _ _ _ _ _ => 7

/-! ### Inversion lemmas for the contract operations -/

theorem createElection_ok_inv (s : VSState) (env : Env) (title : String)
    (st en cr : Nat) (p : Nat × VSState)
    (h : createElection s env title st en cr = .ok p) :
    env.sender = s.electionAuthority ∧ env.timestamp ≤ st ∧ st < en
    ∧ p = (s.electionCount + 1,
      { s with
        electionCount := s.electionCount + 1
        elections := fun n =>
          if n = s.electionCount + 1 then
            { id := s.electionCount + 1, title := title, startTime := st,
              endTime := en, isActive := false, isClosed := false,
              totalVotes := 0, candidatesMerkleRoot := cr }
          else s.elections n }) := by
  unfold createElection at h
  split_ifs at h with h1 h2 h3
  refine ⟨not_ne_iff.mp h1, by omega, by omega, ?_⟩
  cases h
  rfl

theorem openElection_ok_inv (s : VSState) (env : Env) (electionId : Nat)
    (s2 : VSState) (h : openElection s env electionId = .ok s2) :
    env.sender = s.electionAuthority
    ∧ (s.elections electionId).id = electionId
    ∧ (s.elections electionId).isActive = false
    ∧ (s.elections electionId).isClosed = false
    ∧ s2 = { s with
        elections := fun n =>
          if n = electionId then { s.elections electionId with isActive := true }
          else s.elections n } := by
  unfold openElection at h
  split_ifs at h with h1 h2 h3 h4
  refine ⟨not_ne_iff.mp h1, not_ne_iff.mp h2,
    Bool.not_eq_true _ ▸ eq_false_of_ne_true h3, ?_, ?_⟩
  · exact Bool.not_eq_true _ ▸ eq_false_of_ne_true h4
  · cases h
    rfl

theorem closeElection_ok_inv (s : VSState) (env : Env) (electionId : Nat)
    (s2 : VSState) (h : closeElection s env electionId = .ok s2) :
    env.sender = s.electionAuthority
    ∧ (s.elections electionId).id = electionId
    ∧ (s.elections electionId).isActive = true
    ∧ (s.elections electionId).isClosed = false
    ∧ s2 = { s with
        elections := fun n =>
          if n = electionId then
            { s.elections electionId with isActive := false, isClosed := true }
          else s.elections n } := by
  unfold closeElection at h
  split_ifs at h with h1 h2 h3 h4
  refine ⟨not_ne_iff.mp h1, not_ne_iff.mp h2, h3, ?_, ?_⟩
  · exact Bool.not_eq_true _ ▸ eq_false_of_ne_true h4
  · cases h
    rfl

theorem registerAnonymousToken_ok_inv (s : VSState) (env : Env)
    (electionId tokenHash : Nat) (s2 : VSState)
    (h : registerAnonymousToken s env electionId tokenHash = .ok s2) :
    env.sender = s.electionAuthority
    ∧ (s.elections electionId).id = electionId
    ∧ s.usedTokens electionId tokenHash = false
    ∧ s2 = { s with
        usedTokens := fun e t =>
          if e = electionId ∧ t = tokenHash then false
          else s.usedTokens e t } := by
  unfold registerAnonymousToken at h
  split_ifs at h with h1 h2 h3
  refine ⟨not_ne_iff.mp h1, not_ne_iff.mp h2, ?_, ?_⟩
  · exact Bool.not_eq_true _ ▸ eq_false_of_ne_true h3
  · cases h
    rfl

theorem castVote_ok_inv (hv : Nat → Nat → List Nat → Nat → Nat → Nat)
    (s : VSState) (env : Env) (electionId tokenHash : Nat)
    (ballot : List Nat) (p : Nat × VSState)
    (h : castVote hv s env electionId tokenHash ballot = .ok p) :
    (s.elections electionId).isActive = true
    ∧ (s.elections electionId).startTime ≤ env.timestamp
    ∧ env.timestamp ≤ (s.elections electionId).endTime
    ∧ (s.elections electionId).isClosed = false
    ∧ s.usedTokens electionId tokenHash = false
    ∧ (s.votes electionId
        (hv electionId tokenHash ballot env.timestamp env.blockNumber)).voteHash
        = 0
    ∧ p = (hv electionId tokenHash ballot env.timestamp env.blockNumber,
      { s with
        usedTokens := fun e t =>
          if e = electionId ∧ t = tokenHash then true else s.usedTokens e t
        votes := fun e vh =>
          if e = electionId
              ∧ vh = hv electionId tokenHash ballot env.timestamp
                  env.blockNumber then
            { voteHash :=
                hv electionId tokenHash ballot env.timestamp env.blockNumber,
              encryptedBallot := ballot, anonymousTokenHash := tokenHash,
              timestamp := env.timestamp, blockNumber := env.blockNumber }
          else s.votes e vh
        electionVoteHashes := fun e =>
          if e = electionId then
            s.electionVoteHashes e ++
              [hv electionId tokenHash ballot env.timestamp env.blockNumber]
          else s.electionVoteHashes e
        elections := fun n =>
          if n = electionId then
            { s.elections electionId with
              totalVotes := (s.elections electionId).totalVotes + 1 }
          else s.elections n }) := by
  unfold castVote at h
  split_ifs at h with h1 h2 h3 h4 h5 h6
  refine ⟨h1, by omega, by omega, ?_, ?_, not_ne_iff.mp h6, ?_⟩
  · exact Bool.not_eq_true _ ▸ eq_false_of_ne_true h4
  · exact Bool.not_eq_true _ ▸ eq_false_of_ne_true h5
  · cases h
    rfl

/-! ### Reachable-state invariants -/

/-- Invariants of every reachable contract state: ids above
`electionCount` are untouched storage; a closed election is inactive;
a closed election carries its own id (it was created); and
`totalVotes` equals the length of the per-election vote-hash list. -/
def WfState (s : VSState) : Prop :=
  (∀ e, s.electionCount < e →
    s.elections e = defaultElection ∧ s.electionVoteHashes e = [])
  ∧ (∀ e, (s.elections e).isClosed = true → (s.elections e).isActive = false)
  ∧ (∀ e, (s.elections e).isClosed = true → (s.elections e).id = e)
  ∧ (∀ e, (s.elections e).totalVotes = (s.electionVoteHashes e).length)

theorem wf_init (deployer : Nat) : WfState (initState deployer) := by
  refine ⟨fun e _ => ⟨rfl, rfl⟩, fun e hcl => ?_, fun e hcl => ?_, fun e => rfl⟩
  · simp [initState, defaultElection] at hcl
  · simp [initState, defaultElection] at hcl

theorem wf_step (hv : Nat → Nat → List Nat → Nat → Nat → Nat) (s : VSState)
    (env : Env) (c : Cmd) (hwf : WfState s) : WfState (applyCmd hv s env c) := by
  obtain ⟨hw1, hw2, hw3, hw4⟩ := hwf
  cases c with
  | create t st en cr =>
    simp only [applyCmd]
    cases hres : createElection s env t st en cr with
    | error err => exact ⟨hw1, hw2, hw3, hw4⟩
    | ok p =>
      obtain ⟨-, -, -, hp⟩ := createElection_ok_inv s env t st en cr p hres
      subst hp
      refine ⟨fun e he => ?_, fun e hcl => ?_, fun e hcl => ?_, fun e => ?_⟩
      · simp only at he ⊢
        rw [if_neg (by omega)]
        exact hw1 e (by omega)
      · simp only at hcl ⊢
        by_cases hce : e = s.electionCount + 1
        · subst hce
          rw [if_pos rfl] at hcl
          simp at hcl
        · rw [if_neg hce] at hcl ⊢
          exact hw2 e hcl
      · simp only at hcl ⊢
        by_cases hce : e = s.electionCount + 1
        · subst hce
          rw [if_pos rfl] at hcl
          simp at hcl
        · rw [if_neg hce] at hcl ⊢
          exact hw3 e hcl
      · simp only
        by_cases hce : e = s.electionCount + 1
        · subst hce
          rw [if_pos rfl]
          simp [(hw1 (s.electionCount + 1) (by omega)).2]
        · rw [if_neg hce]
          exact hw4 e
  | openEl eid =>
    simp only [applyCmd]
    cases hres : openElection s env eid with
    | error err => exact ⟨hw1, hw2, hw3, hw4⟩
    | ok s2 =>
      obtain ⟨-, hid, hact, hncl, hp⟩ := openElection_ok_inv s env eid s2 hres
      subst hp
      have heid : ¬ s.electionCount < eid := by
        intro hgt
        have hdef := (hw1 eid hgt).1
        rw [hdef] at hid
        simp [defaultElection] at hid
        omega
      refine ⟨fun e he => ?_, fun e hcl => ?_, fun e hcl => ?_, fun e => ?_⟩
      · simp only at he ⊢
        rw [if_neg (by omega)]
        exact hw1 e he
      · simp only at hcl ⊢
        by_cases hce : e = eid
        · subst hce
          rw [if_pos rfl] at hcl
          simp only at hcl
          rw [hncl] at hcl
          simp at hcl
        · rw [if_neg hce] at hcl ⊢
          exact hw2 e hcl
      · simp only at hcl ⊢
        by_cases hce : e = eid
        · subst hce
          rw [if_pos rfl] at hcl
          simp only at hcl
          rw [hncl] at hcl
          simp at hcl
        · rw [if_neg hce] at hcl ⊢
          exact hw3 e hcl
      · simp only
        by_cases hce : e = eid
        · subst hce
          rw [if_pos rfl]
          simp only
          exact hw4 e
        · rw [if_neg hce]
          exact hw4 e
  | closeEl eid =>
    simp only [applyCmd]
    cases hres : closeElection s env eid with
    | error err => exact ⟨hw1, hw2, hw3, hw4⟩
    | ok s2 =>
      obtain ⟨-, hid, hact, hncl, hp⟩ := closeElection_ok_inv s env eid s2 hres
      subst hp
      have heid : ¬ s.electionCount < eid := by
        intro hgt
        have hdef := (hw1 eid hgt).1
        rw [hdef] at hact
        simp [defaultElection] at hact
      refine ⟨fun e he => ?_, fun e hcl => ?_, fun e hcl => ?_, fun e => ?_⟩
      · simp only at he ⊢
        rw [if_neg (by omega)]
        exact hw1 e he
      · simp only at hcl ⊢
        by_cases hce : e = eid
        · subst hce
          rw [if_pos rfl]
        · rw [if_neg hce] at hcl ⊢
          exact hw2 e hcl
      · simp only at hcl ⊢
        by_cases hce : e = eid
        · subst hce
          rw [if_pos rfl]
          simp only
          exact hid
        · rw [if_neg hce] at hcl ⊢
          exact hw3 e hcl
      · simp only
        by_cases hce : e = eid
        · subst hce
          rw [if_pos rfl]
          simp only
          exact hw4 e
        · rw [if_neg hce]
          exact hw4 e
  | register eid tok =>
    simp only [applyCmd]
    cases hres : registerAnonymousToken s env eid tok with
    | error err => exact ⟨hw1, hw2, hw3, hw4⟩
    | ok s2 =>
      obtain ⟨-, -, -, hp⟩ := registerAnonymousToken_ok_inv s env eid tok s2 hres
      subst hp
      exact ⟨hw1, hw2, hw3, hw4⟩
  | cast eid tok b =>
    simp only [applyCmd]
    cases hres : castVote hv s env eid tok b with
    | error err => exact ⟨hw1, hw2, hw3, hw4⟩
    | ok p =>
      obtain ⟨hact, -, -, hncl, -, -, hp⟩ :=
        castVote_ok_inv hv s env eid tok b p hres
      subst hp
      have heid : ¬ s.electionCount < eid := by
        intro hgt
        have hdef := (hw1 eid hgt).1
        rw [hdef] at hact
        simp [defaultElection] at hact
      refine ⟨fun e he => ?_, fun e hcl => ?_, fun e hcl => ?_, fun e => ?_⟩
      · simp only at he ⊢
        rw [if_neg (by omega), if_neg (by omega)]
        exact hw1 e he
      · simp only at hcl ⊢
        by_cases hce : e = eid
        · subst hce
          rw [if_pos rfl] at hcl
          simp only at hcl
          rw [hncl] at hcl
          simp at hcl
        · rw [if_neg hce] at hcl ⊢
          exact hw2 e hcl
      · simp only at hcl ⊢
        by_cases hce : e = eid
        · subst hce
          rw [if_pos rfl] at hcl
          simp only at hcl
          rw [hncl] at hcl
          simp at hcl
        · rw [if_neg hce] at hcl ⊢
          exact hw3 e hcl
      · simp only
        by_cases hce : e = eid
        · subst hce
          rw [if_pos rfl, if_pos rfl]
          simp only [List.length_append, List.length_cons, List.length_nil]
          rw [hw4 e]
        · rw [if_neg hce, if_neg hce]
          exact hw4 e

/-- Every reachable contract state satisfies the invariants. -/
theorem reachable_wf (hv : Nat → Nat → List Nat → Nat → Nat → Nat)
    (s : VSState) (hs : Reachable hv s) : WfState s := by
  induction hs with
  | deployed d => exact wf_init d
  | step s2 env c _ ih => exact wf_step hv s2 env c ih

/-- Lifecycle stage read off the two flags, per the contract comments:
created (inactive, not closed), opened (`isActive`), closed
(`isClosed`). -/
inductive LifeStage where
  | created
  | opened
  | closed
deriving Repr, DecidableEq

def stageOf (el : Election) : LifeStage :=
  if el.isClosed then .closed
  else if el.isActive then .opened
  else .created

theorem stageOf_created_iff (el : Election) :
    stageOf el = .created ↔ el.isClosed = false ∧ el.isActive = false := by
  unfold stageOf
  split_ifs with h1 h2 <;>
    simp_all [Bool.not_eq_true _ ▸ eq_false_of_ne_true]

theorem stageOf_opened_iff (el : Election) :
    stageOf el = .opened ↔ el.isClosed = false ∧ el.isActive = true := by
  unfold stageOf
  split_ifs with h1 h2 <;>
    simp_all [Bool.not_eq_true _ ▸ eq_false_of_ne_true]

theorem stageOf_closed_iff (el : Election) :
    stageOf el = .closed ↔ el.isClosed = true := by
  unfold stageOf
  split_ifs with h1 h2 <;>
    simp_all [Bool.not_eq_true _ ▸ eq_false_of_ne_true]

/-- Success shape of `castVote` under the `electionActive` modifier, an
unused token and a fresh vote hash. -/
theorem castVote_ok (hv : Nat → Nat → List Nat → Nat → Nat → Nat)
    (s : VSState) (env : Env) (electionId tokenHash : Nat) (ballot : List Nat)
    (hact : (s.elections electionId).isActive = true)
    (hst : (s.elections electionId).startTime ≤ env.timestamp)
    (hen : env.timestamp ≤ (s.elections electionId).endTime)
    (hncl : (s.elections electionId).isClosed = false)
    (hunused : s.usedTokens electionId tokenHash = false)
    (hnocoll : (s.votes electionId
      (hv electionId tokenHash ballot env.timestamp env.blockNumber)).voteHash
      = 0) :
    castVote hv s env electionId tokenHash ballot =
      .ok (hv electionId tokenHash ballot env.timestamp env.blockNumber,
        { s with
          usedTokens := fun e t =>
            if e = electionId ∧ t = tokenHash then true else s.usedTokens e t
          votes := fun e vh =>
            if e = electionId
                ∧ vh = hv electionId tokenHash ballot env.timestamp
                    env.blockNumber then
              { voteHash :=
                  hv electionId tokenHash ballot env.timestamp env.blockNumber,
                encryptedBallot := ballot, anonymousTokenHash := tokenHash,
                timestamp := env.timestamp, blockNumber := env.blockNumber }
            else s.votes e vh
          electionVoteHashes := fun e =>
            if e = electionId then
              s.electionVoteHashes e ++
                [hv electionId tokenHash ballot env.timestamp env.blockNumber]
            else s.electionVoteHashes e
          elections := fun n =>
            if n = electionId then
              { s.elections electionId with
                totalVotes := (s.elections electionId).totalVotes + 1 }
            else s.elections n }) := by
  unfold castVote
  rw [if_neg (by simp [hact]), if_neg (by omega), if_neg (by omega),
    if_neg (by simp [hncl]), if_neg (by simp [hunused]),
    if_neg (by simp [hnocoll])]

/-- A consumed token is rejected by `castVote` with the
`"Token deja utilise ou invalide"` error whenever the election-activity
modifier passes. -/
theorem castVote_used_rejected (hv : Nat → Nat → List Nat → Nat → Nat → Nat)
    (s : VSState) (env : Env) (electionId tokenHash : Nat) (ballot : List Nat)
    (hact : (s.elections electionId).isActive = true)
    (hst : (s.elections electionId).startTime ≤ env.timestamp)
    (hen : env.timestamp ≤ (s.elections electionId).endTime)
    (hncl : (s.elections electionId).isClosed = false)
    (hused : s.usedTokens electionId tokenHash = true) :
    castVote hv s env electionId tokenHash ballot =
      .error .tokenAlreadyUsed := by
  unfold castVote
  rw [if_neg (by simp [hact]), if_neg (by omega), if_neg (by omega),
    if_neg (by simp [hncl]), if_pos (by simp [hused])]

/-- Once `usedTokens[e][t]` is `true`, no transaction resets it. -/
theorem used_token_persists (hv : Nat → Nat → List Nat → Nat → Nat → Nat)
    (s : VSState) (env : Env) (c : Cmd) (e t : Nat)
    (hused : s.usedTokens e t = true) :
    (applyCmd hv s env c).usedTokens e t = true := by
  cases c with
  | create t2 st en cr =>
    simp only [applyCmd]
    cases hres : createElection s env t2 st en cr with
    | error err => exact hused
    | ok p =>
      obtain ⟨-, -, -, hp⟩ := createElection_ok_inv s env t2 st en cr p hres
      subst hp
      exact hused
  | openEl eid =>
    simp only [applyCmd]
    cases hres : openElection s env eid with
    | error err => exact hused
    | ok s2 =>
      obtain ⟨-, -, -, -, hp⟩ := openElection_ok_inv s env eid s2 hres
      subst hp
      exact hused
  | closeEl eid =>
    simp only [applyCmd]
    cases hres : closeElection s env eid with
    | error err => exact hused
    | ok s2 =>
      obtain ⟨-, -, -, -, hp⟩ := closeElection_ok_inv s env eid s2 hres
      subst hp
      exact hused
  | register eid tok =>
    simp only [applyCmd]
    cases hres : registerAnonymousToken s env eid tok with
    | error err => exact hused
    | ok s2 =>
      obtain ⟨-, -, hfree, hp⟩ :=
        registerAnonymousToken_ok_inv s env eid tok s2 hres
      subst hp
      simp only
      by_cases hc : e = eid ∧ t = tok
      · obtain ⟨rfl, rfl⟩ := hc
        rw [hfree] at hused
        cases hused
      · rw [if_neg hc]
        exact hused
  | cast eid tok b =>
    simp only [applyCmd]
    cases hres : castVote hv s env eid tok b with
    | error err => exact hused
    | ok p =>
      obtain ⟨-, -, -, -, -, -, hp⟩ := castVote_ok_inv hv s env eid tok b p hres
      subst hp
      simp only
      by_cases hc : e = eid ∧ t = tok
      · rw [if_pos hc]
      · rw [if_neg hc]
        exact hused

/-! ### Concrete scenario fixtures -/

def envDeploy : Env := { sender := 0, timestamp := 5, blockNumber := 1 }

def envVote : Env := { sender := 9, timestamp := 15, blockNumber := 3 }

/-- Deployment by address 0, then `createElection("Sample", 10, 20, 0)`. -/
def sCreated : VSState :=
  applyCmd hvcex (initState 0) envDeploy (Cmd.create "Sample" 10 20 0)

/-- ... then `openElection(1)`. -/
def sOpened : VSState := applyCmd hvcex sCreated envDeploy (Cmd.openEl 1)

/-- ... then `closeElection(1)`. -/
def sClosed : VSState := applyCmd hvcex sOpened envDeploy (Cmd.closeEl 1)

/-- C2 (code bug demonstrated): in the open election 1 of a freshly
deployed contract on which `registerAnonymousToken` was NEVER called,
`castVote` with the unregistered token hash 5 does not fail with
`TokenAlreadyUsed`: it succeeds, returns the vote hash, and records the
vote (`totalVotes` becomes 1).  The registration step writes `false`
into `usedTokens` — the mapping's default — so the contract has no way
to require registration, contradicting its own
`"Token deja utilise ou invalide"` error text and the `TokenRegistered`
event. -/
theorem castVote_accepts_unregistered_token :
    sOpened.usedTokens 1 5 = false
    ∧ (castVote hvcex sOpened envVote 1 5 [9]).toOption.map Prod.fst = some 7
    ∧ ((applyCmd hvcex sOpened envVote (Cmd.cast 1 5 [9])).elections 1).totalVotes
        = 1 := by decide

/-- C9: a successful `registerAnonymousToken` writes `false` into
`usedTokens[electionId][tokenHash]`, whose value is already `false`, so
it returns a state equal (as a whole) to the input state: every read of
the contract afterwards agrees with the same read before, and a
registered-but-unused token is indistinguishable from a never-registered
one. -/
theorem registerToken_storage_noop (s : VSState) (env : Env)
    (electionId tokenHash : Nat) (hauth : env.sender = s.electionAuthority)
    (hex : (s.elections electionId).id = electionId)
    (hunused : s.usedTokens electionId tokenHash = false) :
    registerAnonymousToken s env electionId tokenHash = .ok s := by
  unfold registerAnonymousToken
  rw [if_neg (by simp [hauth]), if_neg (by simp [hex]),
    if_neg (by simp [hunused])]
  have husd : (fun e t =>
      if e = electionId ∧ t = tokenHash then false else s.usedTokens e t)
      = s.usedTokens := by
    funext e t
    by_cases hc : e = electionId ∧ t = tokenHash
    · obtain ⟨rfl, rfl⟩ := hc
      rw [if_pos ⟨rfl, rfl⟩]
      exact hunused.symm
    · rw [if_neg hc]
  rw [husd]

/-- C9 witness: registering token 5 for election 1 right after creation
returns the state unchanged. -/
theorem registerToken_storage_noop_witness :
    (envDeploy.sender = sCreated.electionAuthority
      ∧ (sCreated.elections 1).id = 1 ∧ sCreated.usedTokens 1 5 = false)
    ∧ registerAnonymousToken sCreated envDeploy 1 5 = .ok sCreated :=
  ⟨⟨by decide, by decide, by decide⟩,
    registerToken_storage_noop sCreated envDeploy 1 5 (by decide) (by decide)
      (by decide)⟩

/-- C10: in every reachable state, `elections[id].totalVotes` equals
`electionVoteHashes[id].length`; moreover every transaction other than a
`castVote` on that election changes neither, and `castVote` appends one
hash and adds one to `totalVotes` in the same atomic transaction (see
the success shape in `castVote_ok_inv`). -/
theorem totalVotes_matches_vote_hashes
    (hv : Nat → Nat → List Nat → Nat → Nat → Nat) (s : VSState)
    (hs : Reachable hv s) (electionId : Nat) :
    (s.elections electionId).totalVotes
      = (getElectionVoteHashes s electionId).length
    ∧ (∀ (env : Env) (c : Cmd), (∀ t b, c ≠ Cmd.cast electionId t b) →
        ((applyCmd hv s env c).elections electionId).totalVotes
            = (s.elections electionId).totalVotes
          ∧ getElectionVoteHashes (applyCmd hv s env c) electionId
            = getElectionVoteHashes s electionId) := by
  obtain ⟨hw1, hw2, hw3, hw4⟩ := reachable_wf hv s hs
  refine ⟨hw4 electionId, ?_⟩
  intro env c hnc
  cases c with
  | create t st en cr =>
    simp only [applyCmd]
    cases hres : createElection s env t st en cr with
    | error err => exact ⟨rfl, by first | rfl | trivial⟩
    | ok p =>
      obtain ⟨-, -, -, hp⟩ := createElection_ok_inv s env t st en cr p hres
      subst hp
      simp only [getElectionVoteHashes]
      by_cases hce : electionId = s.electionCount + 1
      · subst hce
        rw [if_pos rfl]
        simp only
        rw [(hw1 (s.electionCount + 1) (by omega)).1]
        exact ⟨rfl, by first | rfl | trivial⟩
      · rw [if_neg hce]
        exact ⟨rfl, by first | rfl | trivial⟩
  | openEl eid =>
    simp only [applyCmd]
    cases hres : openElection s env eid with
    | error err => exact ⟨rfl, by first | rfl | trivial⟩
    | ok s2 =>
      obtain ⟨-, -, -, -, hp⟩ := openElection_ok_inv s env eid s2 hres
      subst hp
      simp only [getElectionVoteHashes]
      by_cases hce : electionId = eid
      · subst hce
        rw [if_pos rfl]
        exact ⟨rfl, by first | rfl | trivial⟩
      · rw [if_neg hce]
        exact ⟨rfl, by first | rfl | trivial⟩
  | closeEl eid =>
    simp only [applyCmd]
    cases hres : closeElection s env eid with
    | error err => exact ⟨rfl, by first | rfl | trivial⟩
    | ok s2 =>
      obtain ⟨-, -, -, -, hp⟩ := closeElection_ok_inv s env eid s2 hres
      subst hp
      simp only [getElectionVoteHashes]
      by_cases hce : electionId = eid
      · subst hce
        rw [if_pos rfl]
        exact ⟨rfl, by first | rfl | trivial⟩
      · rw [if_neg hce]
        exact ⟨rfl, by first | rfl | trivial⟩
  | register eid tok =>
    simp only [applyCmd]
    cases hres : registerAnonymousToken s env eid tok with
    | error err => exact ⟨rfl, by first | rfl | trivial⟩
    | ok s2 =>
      obtain ⟨-, -, -, hp⟩ :=
        registerAnonymousToken_ok_inv s env eid tok s2 hres
      subst hp
      exact ⟨rfl, by first | rfl | trivial⟩
  | cast eid tok b =>
    have hne : eid ≠ electionId := by
      intro heq
      exact hnc tok b (by rw [heq])
    simp only [applyCmd]
    cases hres : castVote hv s env eid tok b with
    | error err => exact ⟨rfl, by first | rfl | trivial⟩
    | ok p =>
      obtain ⟨-, -, -, -, -, -, hp⟩ := castVote_ok_inv hv s env eid tok b p hres
      subst hp
      simp only [getElectionVoteHashes]
      rw [if_neg (fun hc => hne hc.symm), if_neg (fun hc => hne hc.symm)]
      exact ⟨rfl, by first | rfl | trivial⟩

/-- C10 witness: the invariant in the reachable state reached by
create, open, and one cast vote (token 8), where both sides equal 1. -/
theorem totalVotes_matches_vote_hashes_witness :
    ((applyCmd hvcex sOpened envVote (Cmd.cast 1 8 [2])).elections 1).totalVotes
      = (getElectionVoteHashes (applyCmd hvcex sOpened envVote (Cmd.cast 1 8 [2])) 1).length
    ∧ (∀ (env : Env) (c : Cmd), (∀ t b, c ≠ Cmd.cast 1 t b) →
        ((applyCmd hvcex (applyCmd hvcex sOpened envVote (Cmd.cast 1 8 [2])) env c).elections 1).totalVotes
            = ((applyCmd hvcex sOpened envVote (Cmd.cast 1 8 [2])).elections 1).totalVotes
          ∧ getElectionVoteHashes (applyCmd hvcex (applyCmd hvcex sOpened envVote (Cmd.cast 1 8 [2])) env c) 1
            = getElectionVoteHashes (applyCmd hvcex sOpened envVote (Cmd.cast 1 8 [2])) 1) :=
  totalVotes_matches_vote_hashes hvcex
    (applyCmd hvcex sOpened envVote (Cmd.cast 1 8 [2]))
    (Reachable.step sOpened envVote (Cmd.cast 1 8 [2])
      (Reachable.step sCreated envDeploy (Cmd.openEl 1)
        (Reachable.step (initState 0) envDeploy (Cmd.create "Sample" 10 20 0)
          (Reachable.deployed 0)))) 1

/-- C8 counterexample: with `block.timestamp = 100`, creating an
election whose `startTime` is exactly 100 — the present, not strictly
the future — succeeds (the contract checks `startTime >= block.timestamp`),
so the claim that `createElection` fails unless `startTime` is strictly
in the future is false. -/
theorem createElection_boundary_cex :
    exceptOk (createElection (initState 0)
      { sender := 0, timestamp := 100, blockNumber := 1 } "Boundary" 100 200 0)
      = true
    ∧ ¬ (100 : Nat) < 100 := by decide

/-- C8 (amended): called by the authority, `createElection` fails with
the schedule errors unless `startTime >= block.timestamp` (the present
is allowed) and `endTime > startTime`; on success the election receives
the next sequential id `electionCount + 1` and starts as `Created`
(`isActive = false`, `isClosed = false`, zero votes).  The HTTP layer's
`validateElectionData` additionally demands a strictly future start:
when it reports no errors, `now < startTime` and `startTime < endTime`. -/
theorem createElection_schedule (s : VSState) (env : Env) (title : String)
    (st en cr : Nat) (hauth : env.sender = s.electionAuthority) :
    (st < env.timestamp →
      createElection s env title st en cr = .error .startNotFuture)
    ∧ (env.timestamp ≤ st → en ≤ st →
      createElection s env title st en cr = .error .endNotAfterStart)
    ∧ (env.timestamp ≤ st → st < en →
      ∃ s2 : VSState,
        createElection s env title st en cr = .ok (s.electionCount + 1, s2)
        ∧ s2.electionCount = s.electionCount + 1
        ∧ s2.elections (s.electionCount + 1) =
            { id := s.electionCount + 1, title := title, startTime := st,
              endTime := en, isActive := false, isClosed := false,
              totalVotes := 0, candidatesMerkleRoot := cr })
    ∧ (∀ now, validateElectionData title st en now = [] →
        now < st ∧ st < en) := by
  refine ⟨?_, ?_, ?_, ?_⟩
  · intro hlt
    unfold createElection
    rw [if_neg (by simp [hauth]), if_pos (by omega)]
  · intro hge hle
    unfold createElection
    rw [if_neg (by simp [hauth]), if_neg (by omega), if_pos (by omega)]
  · intro hge hlt
    refine ⟨{ s with
        electionCount := s.electionCount + 1
        elections := fun n =>
          if n = s.electionCount + 1 then
            { id := s.electionCount + 1, title := title, startTime := st,
              endTime := en, isActive := false, isClosed := false,
              totalVotes := 0, candidatesMerkleRoot := cr }
          else s.elections n }, ?_, rfl, ?_⟩
    · unfold createElection
      rw [if_neg (by simp [hauth]), if_neg (by omega), if_neg (by omega)]
    · simp
  · intro now hval
    unfold validateElectionData at hval
    by_cases hc3 : st = 0 ∨ st ≤ now
    · rw [if_pos hc3] at hval
      simp [List.append_eq_nil] at hval
    · by_cases hc4 : en = 0 ∨ en ≤ st
      · rw [if_pos hc4] at hval
        simp [List.append_eq_nil] at hval
      · push_neg at hc3 hc4
        omega

/-- C8 witness: the amended statement at a fresh contract with
`block.timestamp = 50`, `startTime = 60`, `endTime = 70`. -/
theorem createElection_schedule_witness :
    ((⟨0, 50, 1⟩ : Env).sender = (initState 0).electionAuthority)
    ∧ (((60 : Nat) < 50 →
        createElection (initState 0) ⟨0, 50, 1⟩ "Sample" 60 70 0
          = .error .startNotFuture)
      ∧ ((50 : Nat) ≤ 60 → (70 : Nat) ≤ 60 →
        createElection (initState 0) ⟨0, 50, 1⟩ "Sample" 60 70 0
          = .error .endNotAfterStart)
      ∧ ((50 : Nat) ≤ 60 → (60 : Nat) < 70 →
        ∃ s2 : VSState,
          createElection (initState 0) ⟨0, 50, 1⟩ "Sample" 60 70 0
              = .ok ((initState 0).electionCount + 1, s2)
            ∧ s2.electionCount = (initState 0).electionCount + 1
            ∧ s2.elections ((initState 0).electionCount + 1) =
                { id := (initState 0).electionCount + 1, title := "Sample",
                  startTime := 60, endTime := 70, isActive := false,
                  isClosed := false, totalVotes := 0,
                  candidatesMerkleRoot := 0 })
      ∧ (∀ now, validateElectionData "Sample" 60 70 now = [] →
          now < 60 ∧ (60 : Nat) < 70)) :=
  ⟨by decide,
    createElection_schedule (initState 0) ⟨0, 50, 1⟩ "Sample" 60 70 0
      (by decide)⟩

/-- C3: for an unused (registered) token `T` in an election that is
active and within `[startTime, endTime]`, the first `castVote` succeeds
and returns the 32-byte vote hash (in range, given the hash's range),
marks `T` used, appends the vote hash, and increments `totalVotes` by
exactly 1; any later `castVote` with `T` in the still-open window fails
with `TokenAlreadyUsed` (and no transaction ever resets the used flag);
and `verifyVoteInclusion` afterwards returns `exists = true` with the
vote's timestamp and block number. -/
theorem castVote_single_use_scenario
    (hv : Nat → Nat → List Nat → Nat → Nat → Nat) (s : VSState) (env : Env)
    (electionId tokenHash : Nat) (ballot : List Nat)
    (hact : (s.elections electionId).isActive = true)
    (hst : (s.elections electionId).startTime ≤ env.timestamp)
    (hen : env.timestamp ≤ (s.elections electionId).endTime)
    (hncl : (s.elections electionId).isClosed = false)
    (hunused : s.usedTokens electionId tokenHash = false)
    (hnocoll : (s.votes electionId
      (hv electionId tokenHash ballot env.timestamp env.blockNumber)).voteHash
      = 0)
    (hvne : hv electionId tokenHash ballot env.timestamp env.blockNumber ≠ 0)
    (hv32 : hv electionId tokenHash ballot env.timestamp env.blockNumber
      < 2 ^ 256) :
    ∃ s2 : VSState,
      castVote hv s env electionId tokenHash ballot
          = .ok (hv electionId tokenHash ballot env.timestamp env.blockNumber,
              s2)
      ∧ hv electionId tokenHash ballot env.timestamp env.blockNumber < 2 ^ 256
      ∧ s2.usedTokens electionId tokenHash = true
      ∧ getElectionVoteHashes s2 electionId
          = getElectionVoteHashes s electionId
              ++ [hv electionId tokenHash ballot env.timestamp env.blockNumber]
      ∧ (s2.elections electionId).totalVotes
          = (s.elections electionId).totalVotes + 1
      ∧ (∀ (env2 : Env) (ballot2 : List Nat),
          (s2.elections electionId).startTime ≤ env2.timestamp →
          env2.timestamp ≤ (s2.elections electionId).endTime →
          castVote hv s2 env2 electionId tokenHash ballot2
            = .error .tokenAlreadyUsed)
      ∧ (∀ (env2 : Env) (c : Cmd),
          (applyCmd hv s2 env2 c).usedTokens electionId tokenHash = true)
      ∧ verifyVoteInclusion s2 electionId
          (hv electionId tokenHash ballot env.timestamp env.blockNumber)
          = (true, env.timestamp, env.blockNumber) := by
  refine ⟨_, castVote_ok hv s env electionId tokenHash ballot hact hst hen
    hncl hunused hnocoll, hv32, ?_, ?_, ?_, ?_, ?_, ?_⟩
  · simp
  · simp [getElectionVoteHashes]
  · simp
  · intro env2 ballot2 hst2 hen2
    refine castVote_used_rejected hv _ env2 electionId tokenHash ballot2
      ?_ hst2 hen2 ?_ ?_
    · simp [hact]
    · simp [hncl]
    · simp
  · intro env2 c
    refine used_token_persists hv _ env2 c electionId tokenHash ?_
    simp
  · simp [verifyVoteInclusion, hvne]

/-- C3 witness: the scenario at the opened election 1 with token 42. -/
theorem castVote_single_use_scenario_witness :
    ((sOpened.elections 1).isActive = true
      ∧ sOpened.usedTokens 1 42 = false)
    ∧ (∃ s2 : VSState,
        castVote hvcex sOpened envVote 1 42 [1]
            = .ok (hvcex 1 42 [1] envVote.timestamp envVote.blockNumber, s2)
        ∧ hvcex 1 42 [1] envVote.timestamp envVote.blockNumber < 2 ^ 256
        ∧ s2.usedTokens 1 42 = true
        ∧ getElectionVoteHashes s2 1
            = getElectionVoteHashes sOpened 1
                ++ [hvcex 1 42 [1] envVote.timestamp envVote.blockNumber]
        ∧ (s2.elections 1).totalVotes = (sOpened.elections 1).totalVotes + 1
        ∧ (∀ (env2 : Env) (ballot2 : List Nat),
            (s2.elections 1).startTime ≤ env2.timestamp →
            env2.timestamp ≤ (s2.elections 1).endTime →
            castVote hvcex s2 env2 1 42 ballot2 = .error .tokenAlreadyUsed)
        ∧ (∀ (env2 : Env) (c : Cmd),
            (applyCmd hvcex s2 env2 c).usedTokens 1 42 = true)
        ∧ verifyVoteInclusion s2 1
            (hvcex 1 42 [1] envVote.timestamp envVote.blockNumber)
            = (true, envVote.timestamp, envVote.blockNumber)) :=
  ⟨⟨by decide, by decide⟩,
    castVote_single_use_scenario hvcex sOpened envVote 1 42 [1] (by decide)
      (by decide) (by decide) (by decide) (by decide) (by decide) (by decide)
      (by decide)⟩

/-- Master lifecycle transition fact: one transaction either leaves an
election's stage unchanged, or is the `openElection` of that election
moving `created → opened`, or the `closeElection` moving
`opened → closed`. -/
theorem applyCmd_stage_cases (hv : Nat → Nat → List Nat → Nat → Nat → Nat)
    (s : VSState) (env : Env) (c : Cmd) (electionId : Nat)
    (hwf : WfState s) :
    stageOf ((applyCmd hv s env c).elections electionId)
        = stageOf (s.elections electionId)
    ∨ (c = Cmd.openEl electionId
      ∧ stageOf (s.elections electionId) = .created
      ∧ stageOf ((applyCmd hv s env c).elections electionId) = .opened)
    ∨ (c = Cmd.closeEl electionId
      ∧ stageOf (s.elections electionId) = .opened
      ∧ stageOf ((applyCmd hv s env c).elections electionId) = .closed) := by
  obtain ⟨hw1, hw2, hw3, hw4⟩ := hwf
  cases c with
  | create t st en cr =>
    left
    simp only [applyCmd]
    cases hres : createElection s env t st en cr with
    | error err => rfl
    | ok p =>
      obtain ⟨-, -, -, hp⟩ := createElection_ok_inv s env t st en cr p hres
      subst hp
      simp only
      by_cases hce : electionId = s.electionCount + 1
      · subst hce
        rw [if_pos rfl, (hw1 (s.electionCount + 1) (by omega)).1]
        simp [stageOf, defaultElection]
      · rw [if_neg hce]
  | openEl eid =>
    simp only [applyCmd]
    cases hres : openElection s env eid with
    | error err => exact Or.inl rfl
    | ok s2 =>
      obtain ⟨-, -, hact, hncl, hp⟩ := openElection_ok_inv s env eid s2 hres
      subst hp
      by_cases hce : electionId = eid
      · subst hce
        right
        left
        refine ⟨rfl, ?_, ?_⟩
        · rw [stageOf_created_iff]
          exact ⟨hncl, hact⟩
        · simp [stageOf_opened_iff, hncl]
      · left
        simp only
        rw [if_neg hce]
  | closeEl eid =>
    simp only [applyCmd]
    cases hres : closeElection s env eid with
    | error err => exact Or.inl rfl
    | ok s2 =>
      obtain ⟨-, -, hact, hncl, hp⟩ := closeElection_ok_inv s env eid s2 hres
      subst hp
      by_cases hce : electionId = eid
      · subst hce
        right
        right
        refine ⟨rfl, ?_, ?_⟩
        · rw [stageOf_opened_iff]
          exact ⟨hncl, hact⟩
        · simp [stageOf_closed_iff]
      · left
        simp only
        rw [if_neg hce]
  | register eid tok =>
    left
    simp only [applyCmd]
    cases hres : registerAnonymousToken s env eid tok with
    | error err => rfl
    | ok s2 =>
      obtain ⟨-, -, -, hp⟩ := registerAnonymousToken_ok_inv s env eid tok s2 hres
      subst hp
      rfl
  | cast eid tok b =>
    left
    simp only [applyCmd]
    cases hres : castVote hv s env eid tok b with
    | error err => rfl
    | ok p =>
      obtain ⟨-, -, -, -, -, -, hp⟩ := castVote_ok_inv hv s env eid tok b p hres
      subst hp
      simp only
      by_cases hce : electionId = eid
      · subst hce
        rw [if_pos rfl]
        simp [stageOf]
      · rw [if_neg hce]

/-- C5: the election lifecycle is strictly linear in every reachable
state: from `Created` the only reachable next stage is `Opened`, and
only via `openElection` of that election; from `Opened` the only next
stage is `Closed`, only via `closeElection`; `Closed` has no outgoing
transition; and `openElection` called by the authority on a closed
election fails with the `"L'election est deja cloturee"`
(`AlreadyClosed`) error. -/
theorem election_lifecycle_linear (hv : Nat → Nat → List Nat → Nat → Nat → Nat)
    (s : VSState) (hs : Reachable hv s) (env : Env) (c : Cmd)
    (electionId : Nat) :
    (stageOf (s.elections electionId) = .created →
      stageOf ((applyCmd hv s env c).elections electionId) = .created
      ∨ (c = Cmd.openEl electionId
        ∧ stageOf ((applyCmd hv s env c).elections electionId) = .opened))
    ∧ (stageOf (s.elections electionId) = .opened →
      stageOf ((applyCmd hv s env c).elections electionId) = .opened
      ∨ (c = Cmd.closeEl electionId
        ∧ stageOf ((applyCmd hv s env c).elections electionId) = .closed))
    ∧ (stageOf (s.elections electionId) = .closed →
      stageOf ((applyCmd hv s env c).elections electionId) = .closed)
    ∧ (stageOf (s.elections electionId) = .closed →
      env.sender = s.electionAuthority →
      openElection s env electionId = .error .alreadyClosed) := by
  have hwf := reachable_wf hv s hs
  have hcases := applyCmd_stage_cases hv s env c electionId hwf
  obtain ⟨hw1, hw2, hw3, hw4⟩ := hwf
  refine ⟨?_, ?_, ?_, ?_⟩
  · intro hcr
    rcases hcases with heq | ⟨hc, -, hop⟩ | ⟨-, hst, -⟩
    · exact Or.inl (heq.trans hcr)
    · exact Or.inr ⟨hc, hop⟩
    · rw [hcr] at hst
      cases hst
  · intro hop
    rcases hcases with heq | ⟨-, hst, -⟩ | ⟨hc, -, hcl⟩
    · exact Or.inl (heq.trans hop)
    · rw [hop] at hst
      cases hst
    · exact Or.inr ⟨hc, hcl⟩
  · intro hcl
    rcases hcases with heq | ⟨-, hst, -⟩ | ⟨-, hst, -⟩
    · exact heq.trans hcl
    · rw [hcl] at hst
      cases hst
    · rw [hcl] at hst
      cases hst
  · intro hcl hauth
    have hclosed : (s.elections electionId).isClosed = true :=
      (stageOf_closed_iff _).mp hcl
    unfold openElection
    rw [if_neg (by simp [hauth]), if_neg (by simp [hw3 electionId hclosed]),
      if_neg (by simp [hw2 electionId hclosed]), if_pos (by simp [hclosed])]

/-- C5 witness: the lifecycle statement at the concrete reachable
closed election 1, together with the fact that its stage is `closed`
(so the `AlreadyClosed` branch is exercised). -/
theorem election_lifecycle_linear_witness :
    (stageOf (sClosed.elections 1) = .closed
      ∧ envDeploy.sender = sClosed.electionAuthority)
    ∧ ((stageOf (sClosed.elections 1) = .created →
        stageOf ((applyCmd hvcex sClosed envDeploy (Cmd.openEl 1)).elections 1)
            = .created
        ∨ (Cmd.openEl 1 = Cmd.openEl 1
          ∧ stageOf ((applyCmd hvcex sClosed envDeploy (Cmd.openEl 1)).elections 1)
              = .opened))
      ∧ (stageOf (sClosed.elections 1) = .opened →
        stageOf ((applyCmd hvcex sClosed envDeploy (Cmd.openEl 1)).elections 1)
            = .opened
        ∨ (Cmd.openEl 1 = Cmd.closeEl 1
          ∧ stageOf ((applyCmd hvcex sClosed envDeploy (Cmd.openEl 1)).elections 1)
              = .closed))
      ∧ (stageOf (sClosed.elections 1) = .closed →
        stageOf ((applyCmd hvcex sClosed envDeploy (Cmd.openEl 1)).elections 1)
            = .closed)
      ∧ (stageOf (sClosed.elections 1) = .closed →
        envDeploy.sender = sClosed.electionAuthority →
        openElection sClosed envDeploy 1 = .error .alreadyClosed)) :=
  ⟨⟨by decide, by decide⟩,
    election_lifecycle_linear hvcex sClosed
      (Reachable.step sOpened envDeploy (Cmd.closeEl 1)
        (Reachable.step sCreated envDeploy (Cmd.openEl 1)
          (Reachable.step (initState 0) envDeploy
            (Cmd.create "Sample" 10 20 0) (Reachable.deployed 0))))
      envDeploy (Cmd.openEl 1) 1⟩
